import Mathlib

/-!
Shallow embedding of the OpenContext hybrid search core
(`crates/opencontext-core/src/search/searcher.rs` and `error.rs`).

Modelling conventions:
* Rust `f32` scores are modelled as exact rationals `ℚ`; floating-point
  rounding is outside the model (the spec states the score properties
  "within floating tolerance").
* Rust `HashMap` is modelled as an insertion-ordered association list and
  `HashSet` as a duplicate-free list; only the arbitrary iteration order
  of `into_values` differs, which the verified properties do not use.
* `str::to_lowercase` is a standard-library function external to the
  repository; it is a parameter `low : List Char → List Char` of the
  tokenizer model.  Likewise `f32::ln` is transcendental and is a
  parameter `lnq : ℚ → ℚ` of the BM25 model.
* The async collaborators (vector store, embedding client) are modelled
  by parameters giving their outcome as `Except` values.
-/

namespace OpenContext

/-- Modelled from the spec: `matched_by` is one of vector, keyword, hybrid
(the `MatchType` enum lives in `types.rs`, which is not part of the sources
given; its variants are visible in `searcher.rs`). -/
inductive MatchType where
  | vector
  | keyword
  | hybrid
  deriving DecidableEq

/-- Modelled from the spec: retrieval mode selector (`SearchMode` in
`types.rs`, variants visible in `searcher.rs`). -/
inductive SearchMode where
  | vector
  | keyword
  | hybrid
  deriving DecidableEq

/-- Modelled from the spec: aggregation granularity (`AggregateBy` in
`types.rs`, variants visible in `searcher.rs`). -/
inductive AggregateBy where
  | content
  | doc
  | folder
  deriving DecidableEq

/-- Modelled from the spec: a scored chunk (`SearchHit` in `types.rs`).
The field list is exactly the one constructed in
`Searcher::aggregate_by_doc` / `aggregate_by_folder` in `searcher.rs`.
Scores (`f32` in Rust) are modelled as `ℚ`. -/
structure SearchHit where
  file_path : String
  display_name : String
  content : String
  heading_path : Option String
  section_title : Option String
  line_start : Option Nat
  line_end : Option Nat
  score : ℚ
  matched_by : MatchType
  hit_count : Option Nat
  doc_count : Option Nat
  folder_path : Option String
  aggregate_type : Option String
  doc_type : Option String
  entry_id : Option String
  entry_date : Option String
  entry_created_at : Option String
  deriving DecidableEq

/-- Search error taxonomy, from `error.rs` (`SearchError`).  Payloads of
foreign error types (`std::io`, `reqwest`, `serde_json`, `lancedb`) are
modelled as their message strings. -/
inductive SearchErr where
  | config : String → SearchErr
  | embedding : String → SearchErr
  | vectorStore : String → SearchErr
  | index : String → SearchErr
  | search : String → SearchErr
  | io : String → SearchErr
  | http : String → SearchErr
  | json : String → SearchErr
  | lance : String → SearchErr
  | indexNotBuilt : SearchErr
  | apiKeyMissing : SearchErr
  deriving DecidableEq

/-- RRF constant, typically 60 (`RRF_K` in `searcher.rs`). -/
def RRF_K : ℚ := 60

/-- Vector search weight in hybrid mode (`VECTOR_WEIGHT`). -/
def VECTOR_WEIGHT : ℚ := 0.7

/-- Keyword search weight in hybrid mode (`KEYWORD_WEIGHT`). -/
def KEYWORD_WEIGHT : ℚ := 0.3

/-! ### Tokenizer (`Searcher::tokenize`, `is_chinese_char`,
`add_chinese_tokens`) -/

/-- Check if character is Chinese: `('\u{4e00}'..='\u{9fff}').contains(&c)`
(`Searcher::is_chinese_char`). -/
def isChineseChar (c : Char) : Bool :=
  decide (0x4e00 ≤ c.toNat) && decide (c.toNat ≤ 0x9fff)

/-- Rust `char::is_ascii_alphanumeric`: `'0'..='9' | 'A'..='Z' | 'a'..='z'`
(code points 48–57, 65–90, 97–122). -/
def isAsciiAlphanumeric (c : Char) : Bool :=
  (decide (48 ≤ c.toNat) && decide (c.toNat ≤ 57)) ||
  (decide (65 ≤ c.toNat) && decide (c.toNat ≤ 90)) ||
  (decide (97 ≤ c.toNat) && decide (c.toNat ≤ 122))

/-- Add Chinese tokens (character-level + 2-gram): for each position `i`
push the single character, and if `i < len-1` also the bigram
(`Searcher::add_chinese_tokens`). -/
def add_chinese_tokens : List Char → List (List Char)
  | [] => []
  | [c] => [[c]]
  | c :: d :: rest => [c] :: [c, d] :: add_chinese_tokens (d :: rest)

/-- Flush of the Latin accumulator: runs of length ≥ 2 are emitted, shorter
runs are discarded (the `current_english.len() >= 2` pushes in
`Searcher::tokenize`; the accumulator holds only ASCII characters, so the
Rust byte length equals the character count). -/
def flushLatin (eng : List Char) (toks : List (List Char)) : List (List Char) :=
  if 2 ≤ eng.length then toks ++ [eng] else toks

/-- Flush of the CJK accumulator (the `add_chinese_tokens` calls in
`Searcher::tokenize`). -/
def flushCJK (chn : List Char) (toks : List (List Char)) : List (List Char) :=
  if chn = [] then toks else toks ++ add_chinese_tokens chn

/-- The character scan of `Searcher::tokenize`: two accumulators (english,
chinese) and the token list built so far. -/
def tokenizeLoop : List Char → List Char → List Char → List (List Char) →
    List (List Char)
  | [], eng, chn, toks => flushCJK chn (flushLatin eng toks)
  | c :: cs, eng, chn, toks =>
    if isAsciiAlphanumeric c then
      tokenizeLoop cs (eng ++ [c]) [] (flushCJK chn toks)
    else if isChineseChar c then
      tokenizeLoop cs [] (chn ++ [c]) (flushLatin eng toks)
    else
      tokenizeLoop cs [] [] (flushCJK chn (flushLatin eng toks))

/-- Tokenize text (`Searcher::tokenize`): empty input short-circuits, the
rest is scanned after lowercasing.  `low` models `str::to_lowercase`. -/
def tokenize (low : List Char → List Char) (text : List Char) :
    List (List Char) :=
  if text = [] then [] else tokenizeLoop (low text) [] [] []

/-- Count token frequency (`Searcher::count_tokens`): the `HashMap` is
modelled by its lookup function; a key absent from the map has count 0,
and `contains_key t` holds iff the count is positive. -/
def count_tokens (tokens : List (List Char)) : List Char → Nat :=
  fun t => tokens.count t

/-! ### Stable descending sort

Rust's `sort_by(|a, b| b.score.partial_cmp(&a.score).unwrap_or(Equal))`
is a stable descending sort by a rational key; `ℚ` has no NaN so the
`unwrap_or` branch is dead.  It is modelled as a stable insertion sort. -/

/-- Insert keeping the descending-by-key order; an element is placed after
every earlier element whose key is not smaller (stability). -/
def insertDesc {α : Type} (key : α → ℚ) (x : α) : List α → List α
  | [] => [x]
  | y :: ys => if key x ≤ key y then y :: insertDesc key x ys else x :: y :: ys

/-- Stable sort, descending by `key`. -/
def sortDesc {α : Type} (key : α → ℚ) : List α → List α
  | [] => []
  | x :: xs => insertDesc key x (sortDesc key xs)

theorem mem_insertDesc {α : Type} (key : α → ℚ) (x : α) (l : List α) (z : α) :
    z ∈ insertDesc key x l ↔ z = x ∨ z ∈ l := by
  induction l with
  | nil => simp [insertDesc]
  | cons y ys ih =>
    simp only [insertDesc]
    split
    · simp only [List.mem_cons, ih]
      tauto
    · simp [List.mem_cons]

theorem mem_sortDesc {α : Type} (key : α → ℚ) (l : List α) (z : α) :
    z ∈ sortDesc key l ↔ z ∈ l := by
  induction l with
  | nil => simp [sortDesc]
  | cons x xs ih => simp [sortDesc, mem_insertDesc, ih]

theorem pairwise_insertDesc {α : Type} (key : α → ℚ) (x : α) (l : List α)
    (h : l.Pairwise (fun a b => key b ≤ key a)) :
    (insertDesc key x l).Pairwise (fun a b => key b ≤ key a) := by
  induction l with
  | nil => simp [insertDesc]
  | cons y ys ih =>
    rw [List.pairwise_cons] at h
    simp only [insertDesc]
    split
    · rename_i hxy
      rw [List.pairwise_cons]
      refine ⟨?_, ih h.2⟩
      intro z hz
      rcases (mem_insertDesc key x ys z).mp hz with hzx | hzm
      · exact hzx ▸ hxy
      · exact h.1 z hzm
    · rename_i hxy
      push_neg at hxy
      rw [List.pairwise_cons]
      refine ⟨?_, List.pairwise_cons.mpr h⟩
      intro z hz
      rcases List.mem_cons.mp hz with hzy | hzm
      · exact hzy ▸ le_of_lt hxy
      · exact le_trans (h.1 z hzm) (le_of_lt hxy)

theorem pairwise_sortDesc {α : Type} (key : α → ℚ) (l : List α) :
    (sortDesc key l).Pairwise (fun a b => key b ≤ key a) := by
  induction l with
  | nil => simp [sortDesc]
  | cons x xs ih => exact pairwise_insertDesc key x _ ih

/-- Every element of a descending-sorted list has key at most the head's. -/
theorem sortDesc_head_max {α : Type} (key : α → ℚ) (l : List α) (h : α)
    (t : List α) (heq : sortDesc key l = h :: t) :
    ∀ z ∈ sortDesc key l, key z ≤ key h := by
  have hp := pairwise_sortDesc key l
  rw [heq] at hp ⊢
  rw [List.pairwise_cons] at hp
  intro z hz
  rcases List.mem_cons.mp hz with hzh | hzt
  · exact hzh ▸ le_refl _
  · exact hp.1 z hzt

/-! ### BM25 keyword search (`Searcher::keyword_search`) -/

/-- The `scored_hits.first().map(|(s, _)| *s).unwrap_or(1.0)` read of the
maximum score after sorting, in `Searcher::keyword_search`. -/
def maxScoreOf (sorted : List (ℚ × SearchHit)) : ℚ :=
  ((sorted.head?).map (fun p => p.1)).getD 1

/-- The normalization tail of `Searcher::keyword_search` (lines 229–246):
sort descending by raw score, read the max score off the first element
(`unwrap_or(1.0)`), truncate to `limit`, and divide every surviving score
by the max when it is positive (else set 0). -/
def normalizeStage (scored_hits : List (ℚ × SearchHit)) (limit : Nat) :
    List SearchHit :=
  ((sortDesc (fun p => p.1) scored_hits).take limit).map (fun p =>
    { p.2 with score :=
        if 0 < maxScoreOf (sortDesc (fun p => p.1) scored_hits) then
          p.1 / maxScoreOf (sortDesc (fun p => p.1) scored_hits)
        else 0 })

/-- Perform keyword search using the BM25 algorithm
(`Searcher::keyword_search`).  `lnq` models `f32::ln`, `low` models
`str::to_lowercase`; `all_chunks` is the corpus preloaded at construction.
The per-document `HashMap`s of token frequencies and the document-frequency
map over query terms are modelled by their lookup functions. -/
def keyword_search (lnq : ℚ → ℚ) (low : List Char → List Char)
    (all_chunks : List SearchHit) (query : List Char) (limit : Nat) :
    List SearchHit :=
  let K1 : ℚ := 1.2
  let B : ℚ := 0.75
  let query_tokens := tokenize low query
  if query_tokens = [] ∨ all_chunks = [] then [] else
  let total_docs := all_chunks.length
  let doc_data : List ((List Char → Nat) × Nat) := all_chunks.map
    (fun chunk =>
      let combined := chunk.content.data ++ [' '] ++
        (chunk.heading_path.getD "").data
      let tokens := tokenize low combined
      (count_tokens tokens, tokens.length))
  let total_length : Nat := (doc_data.map (fun d => d.2)).sum
  let avg_doc_length : ℚ :=
    if 0 < total_docs then (total_length : ℚ) / (total_docs : ℚ) else 1
  let doc_frequency : List Char → Nat := fun token =>
    (doc_data.filter (fun d => decide (0 < d.1 token))).length
  let scored_hits : List (ℚ × SearchHit) :=
    (all_chunks.zip doc_data).filterMap (fun p =>
      let chunk := p.1
      let token_freq := p.2.1
      let doc_length := p.2.2
      let score : ℚ := (query_tokens.map (fun term =>
        let tf : ℚ := (token_freq term : ℚ)
        if tf = 0 then 0 else
        let df : ℚ := (doc_frequency term : ℚ)
        if df = 0 then 0 else
        let idf := lnq (((total_docs : ℚ) - df + 0.5) / (df + 0.5) + 1)
        let tf_norm := tf * (K1 + 1) /
          (tf + K1 * (1 - B + B * ((doc_length : ℚ) / avg_doc_length)))
        idf * tf_norm)).sum
      if 0 < score then
        some (score, { chunk with score := score, matched_by := .keyword })
      else none)
  normalizeStage scored_hits limit

/-! ### Reciprocal Rank Fusion (`Searcher::rrf_fusion`) -/

/-- Bucket of the RRF score map (`FusedEntry` in `Searcher::rrf_fusion`). -/
structure FusedEntry where
  score : ℚ
  hit : SearchHit
  sources : List String
  deriving DecidableEq

/-- The RRF bucket key: `format!("{}:{}", hit.file_path,
hit.line_start.unwrap_or(0))`. -/
def rrfKey (hit : SearchHit) : String :=
  hit.file_path ++ ":" ++ toString (hit.line_start.getD 0)

/-- One contribution to the score map: `scores.get_mut(&key)` updates the
existing bucket in place, otherwise a fresh bucket is inserted with the
incoming hit payload tagged `Hybrid`.  The `HashMap` is an
insertion-ordered association list. -/
def rrfInsert (key : String) (rrf_score : ℚ) (src : String)
    (hit : SearchHit) :
    List (String × FusedEntry) → List (String × FusedEntry)
  | [] => [(key, { score := rrf_score,
                   hit := { hit with matched_by := .hybrid },
                   sources := [src] })]
  | (k, e) :: rest =>
    if k = key then
      (k, { e with score := e.score + rrf_score,
                   sources := e.sources ++ [src] }) :: rest
    else
      (k, e) :: rrfInsert key rrf_score src hit rest

/-- Process one source list: the hit at 0-based rank `index` contributes
`weight / (RRF_K + index + 1)`. -/
def rrfProcessList (src : String) (weight : ℚ) :
    Nat → List SearchHit → List (String × FusedEntry) →
    List (String × FusedEntry)
  | _, [], m => m
  | index, hit :: rest, m =>
    rrfProcessList src weight (index + 1) rest
      (rrfInsert (rrfKey hit) (weight / (RRF_K + (index : ℚ) + 1)) src hit m)

/-- Reciprocal Rank Fusion (`Searcher::rrf_fusion`). -/
def rrf_fusion (vector_results keyword_results : List SearchHit)
    (limit : Nat) : List SearchHit :=
  let scores := rrfProcessList "vector" VECTOR_WEIGHT 0 vector_results []
  let scores := rrfProcessList "keyword" KEYWORD_WEIGHT 0 keyword_results
    scores
  let results := scores.map (fun p =>
    let entry := p.2
    let matched_by : MatchType :=
      if 1 < entry.sources.length then .hybrid
      else if "vector" ∈ entry.sources then .vector
      else .keyword
    { entry.hit with score := entry.score, matched_by := matched_by })
  (sortDesc (fun h => h.score) results).take limit

/-! ### Aggregation (`Searcher::aggregate_by_doc`,
`Searcher::aggregate_by_folder`) -/

/-- Rust `f32::min` on the rational model, written with an explicit `if`
so that it evaluates by kernel reduction (`ℚ` has no NaN, so this agrees
with `f32::min` on the modelled values). -/
def ratMin (a b : ℚ) : ℚ := if a ≤ b then a else b

theorem ratMin_le_right (a b : ℚ) : ratMin a b ≤ b := by
  unfold ratMin
  split
  · assumption
  · exact le_refl b

theorem ratMin_nonneg (a b : ℚ) (ha : 0 ≤ a) (hb : 0 ≤ b) :
    0 ≤ ratMin a b := by
  unfold ratMin
  split
  · exact ha
  · exact hb

/-- Model of `file_path.split('/').next_back().unwrap_or(&file_path)`: the
segment after the last `'/'` (the whole string when there is no slash; the
`unwrap_or` branch is dead since `split` always yields an element). -/
def lastSegment (s : String) : String :=
  ⟨(s.data.reverse.takeWhile (fun c => c ≠ '/')).reverse⟩

/-- Helper for `trim_end_matches(".md")`, working on the reversed character
list: strip every leading occurrence of the reversed suffix `"dm."`. -/
def stripMdReversed : List Char → List Char
  | 'd' :: 'm' :: '.' :: rest => stripMdReversed rest
  | l => l

/-- Rust `str::trim_end_matches(".md")`: repeatedly removes the suffix
`".md"` while present. -/
def trimEndMd (s : String) : String :=
  ⟨(stripMdReversed s.data.reverse).reverse⟩

/-- The display name computed in `Searcher::aggregate_by_doc`: last path
segment with all trailing `".md"` suffixes stripped. -/
def displayNameOfDoc (file_path : String) : String :=
  trimEndMd (lastSegment file_path)

/-- Per-document accumulator (`DocAgg` in `Searcher::aggregate_by_doc`). -/
structure DocAgg where
  file_path : String
  display_name : String
  top_score : ℚ
  hit_count : Nat
  top_chunk : SearchHit

/-- The per-hit update of a document bucket: increment `hit_count`; replace
the top chunk when `hit.score > top_score`. -/
def bumpDoc (hit : SearchHit) (agg : DocAgg) : DocAgg :=
  let agg := { agg with hit_count := agg.hit_count + 1 }
  if agg.top_score < hit.score then
    { agg with top_score := hit.score, top_chunk := hit }
  else agg

/-- The `doc_map.entry(file_path).or_insert_with(default)` step followed by
the bump; fresh buckets start with `top_score = 0`, `hit_count = 0` and the
incoming hit as provisional top chunk. -/
def docAggInsert (hit : SearchHit) :
    List (String × DocAgg) → List (String × DocAgg)
  | [] => [(hit.file_path,
      bumpDoc hit
        { file_path := hit.file_path,
          display_name := displayNameOfDoc hit.file_path,
          top_score := 0, hit_count := 0, top_chunk := hit })]
  | (k, agg) :: rest =>
    if k = hit.file_path then (k, bumpDoc hit agg) :: rest
    else (k, agg) :: docAggInsert hit rest

/-- Aggregate results by document (`Searcher::aggregate_by_doc`):
`score = topScore * 0.6 + min(hitCount/5, 1) * topScore * 0.4`. -/
def aggregate_by_doc (hits : List SearchHit) (limit : Nat) :
    List SearchHit :=
  let doc_map := hits.foldl (fun m hit => docAggInsert hit m) []
  let results := doc_map.map (fun p =>
    let doc := p.2
    let hit_bonus : ℚ := ratMin ((doc.hit_count : ℚ) / 5) 1
    let aggregated_score := doc.top_score * 0.6 +
      hit_bonus * doc.top_score * 0.4
    { file_path := doc.file_path
      display_name := doc.display_name
      content := doc.top_chunk.content
      heading_path := doc.top_chunk.heading_path
      section_title := doc.top_chunk.section_title
      line_start := doc.top_chunk.line_start
      line_end := doc.top_chunk.line_end
      score := aggregated_score
      matched_by := doc.top_chunk.matched_by
      hit_count := some doc.hit_count
      doc_count := none
      folder_path := none
      aggregate_type := some "doc"
      doc_type := doc.top_chunk.doc_type
      entry_id := none
      entry_date := none
      entry_created_at := none : SearchHit })
  (sortDesc (fun h => h.score) results).take limit

/-- Model of `file_path.rsplit_once('/')`, keeping the part before the last
slash; `"."` when the path contains no slash. -/
def folderOf (s : String) : String :=
  if s.data.contains '/' then
    ⟨((s.data.reverse.dropWhile (fun c => c ≠ '/')).drop 1).reverse⟩
  else "."

/-- The folder display name computed in `Searcher::aggregate_by_folder`:
`"(root)"` for the `"."` key, otherwise the leaf segment of the folder
path. -/
def folderDisplayName (folder_path : String) : String :=
  if folder_path = "." then "(root)" else lastSegment folder_path

/-- Per-folder accumulator (`FolderAgg` in
`Searcher::aggregate_by_folder`); the `HashSet` of documents is a
duplicate-free list. -/
structure FolderAgg where
  folder_path : String
  display_name : String
  top_score : ℚ
  hit_count : Nat
  docs : List String
  top_chunk : SearchHit

/-- `HashSet::insert`, on the duplicate-free list model. -/
def insertDocSet (s : List String) (x : String) : List String :=
  if x ∈ s then s else s ++ [x]

/-- The per-hit update of a folder bucket. -/
def bumpFolder (hit : SearchHit) (agg : FolderAgg) : FolderAgg :=
  let agg := { agg with hit_count := agg.hit_count + 1,
                        docs := insertDocSet agg.docs hit.file_path }
  if agg.top_score < hit.score then
    { agg with top_score := hit.score, top_chunk := hit }
  else agg

/-- The `folder_map.entry(folder_path).or_insert_with(default)` step
followed by the bump. -/
def folderAggInsert (hit : SearchHit) :
    List (String × FolderAgg) → List (String × FolderAgg)
  | [] =>
    let fp := folderOf hit.file_path
    [(fp, bumpFolder hit
        { folder_path := fp, display_name := folderDisplayName fp,
          top_score := 0, hit_count := 0, docs := [], top_chunk := hit })]
  | (k, agg) :: rest =>
    if k = folderOf hit.file_path then (k, bumpFolder hit agg) :: rest
    else (k, agg) :: folderAggInsert hit rest

/-- Aggregate results by folder (`Searcher::aggregate_by_folder`):
`score = topScore * 0.5 + min(hitCount/10, 1) * topScore * 0.3 +
min(docCount/3, 1) * topScore * 0.2`. -/
def aggregate_by_folder (hits : List SearchHit) (limit : Nat) :
    List SearchHit :=
  let folder_map := hits.foldl (fun m hit => folderAggInsert hit m) []
  let results := folder_map.map (fun p =>
    let folder := p.2
    let hit_bonus : ℚ := ratMin ((folder.hit_count : ℚ) / 10) 1
    let doc_bonus : ℚ := ratMin ((folder.docs.length : ℚ) / 3) 1
    let aggregated_score := folder.top_score * 0.5 +
      hit_bonus * folder.top_score * 0.3 +
      doc_bonus * folder.top_score * 0.2
    { file_path := folder.top_chunk.file_path
      display_name := folder.display_name
      content := folder.top_chunk.content
      heading_path := folder.top_chunk.heading_path
      section_title := folder.top_chunk.section_title
      line_start := folder.top_chunk.line_start
      line_end := folder.top_chunk.line_end
      score := aggregated_score
      matched_by := folder.top_chunk.matched_by
      hit_count := some folder.hit_count
      doc_count := some folder.docs.length
      folder_path := some folder.folder_path
      aggregate_type := some "folder"
      doc_type := folder.top_chunk.doc_type
      entry_id := none
      entry_date := none
      entry_created_at := none : SearchHit })
  (sortDesc (fun h => h.score) results).take limit

/-! ### Orchestrator (`Searcher::search`, `Searcher::new`) -/

/-- Modelled from the spec: the recognized search options (`SearchOptions`
in `types.rs`); the accessor methods `limit()`, `mode()`, `aggregate_by()`
are modelled as the already-resolved field values. -/
structure SearchOptions where
  query : String
  mode : SearchMode
  limit : Nat
  aggregate_by : AggregateBy
  doc_type : Option String

/-- The search response (`SearchResults` in `types.rs`); field list as
constructed in `Searcher::search` and described in the spec. -/
structure SearchResults where
  query : String
  count : Nat
  results : List SearchHit
  mode : Option String
  aggregate_by : Option String
  index_missing : Option Bool
  error : Option String
  deriving DecidableEq

/-- Modelled from the spec: `SearchResults::empty(query)` (in `types.rs`) —
an empty successful result, `count = 0`, with the query echoed back. -/
def SearchResults.empty (q : String) : SearchResults :=
  { query := q, count := 0, results := [], mode := none,
    aggregate_by := none, index_missing := none, error := none }

/-- Modelled from the spec: `SearchResults::index_not_built(query)` (in
`types.rs`) — empty result carrying the `index_missing` marker. -/
def SearchResults.index_not_built (q : String) : SearchResults :=
  { query := q, count := 0, results := [], mode := none,
    aggregate_by := none, index_missing := some true, error := none }

/-- Rust `str::trim`: drop whitespace from both ends.  `Char.isWhitespace`
models `char::is_whitespace` (they agree on ASCII whitespace; the larger
Unicode `White_Space` set is elided). -/
def rustTrim (s : String) : String :=
  ⟨((s.data.dropWhile Char.isWhitespace).reverse.dropWhile
      Char.isWhitespace).reverse⟩

/-- The retain predicate of the `doc_type` filter in `Searcher::search`:
`"idea"` requires `doc_type == Some("idea")`, `"doc"` requires
`doc_type.unwrap_or("doc") == "doc"`, anything else keeps the hit. -/
def docTypeRetain (filter_type : String) (hit : SearchHit) : Bool :=
  if filter_type = "idea" then decide (hit.doc_type = some "idea")
  else if filter_type = "doc" then decide (hit.doc_type.getD "doc" = "doc")
  else true

/-- Perform vector search (`Searcher::vector_search`): the composite
outcome of `embed_one` plus `vector_store.search` for the query at hand is
the oracle `vres`, a function of the requested limit; surviving hits are
tagged `matched_by = vector`. -/
def vector_search (vres : Nat → Except SearchErr (List SearchHit))
    (limit : Nat) : Except SearchErr (List SearchHit) :=
  match vres limit with
  | .error e => .error e
  | .ok results => .ok (results.map (fun h => { h with matched_by := .vector }))

/-- Perform hybrid search (`Searcher::hybrid_search`): both sub-searches at
`3 * limit` candidates, fused by RRF down to `limit`. -/
def hybrid_search (lnq : ℚ → ℚ) (low : List Char → List Char)
    (all_chunks : List SearchHit)
    (vres : Nat → Except SearchErr (List SearchHit))
    (query : List Char) (limit : Nat) : Except SearchErr (List SearchHit) :=
  let candidate_limit := limit * 3
  match vector_search vres candidate_limit with
  | .error e => .error e
  | .ok vector_results =>
    .ok (rrf_fusion vector_results
      (keyword_search lnq low all_chunks query candidate_limit) limit)

/-- Search executor state: the preloaded chunk corpus (`Searcher` in
`searcher.rs`; the configuration snapshot and the vector-store and
embedding-client handles are opaque and appear only through the oracle
parameters of the operations). -/
structure Searcher where
  all_chunks : List SearchHit
  deriving DecidableEq

/-- Execute a search (`Searcher::search`).  `index_exists` models the
`vector_store.exists()` probe and `vres` the vector-search collaborators;
`lnq` and `low` are the `f32::ln` / `to_lowercase` parameters threaded to
BM25. -/
def Searcher.search (self : Searcher) (lnq : ℚ → ℚ)
    (low : List Char → List Char) (index_exists : Bool)
    (vres : Nat → Except SearchErr (List SearchHit))
    (options : SearchOptions) : Except SearchErr SearchResults :=
  let query := rustTrim options.query
  if query = "" then .ok (SearchResults.empty query) else
  if index_exists = false then .ok (SearchResults.index_not_built query) else
  let limit := options.limit
  let mode := options.mode
  let aggregate_by := options.aggregate_by
  let search_limit :=
    if aggregate_by = AggregateBy.content then limit else limit * 5
  let hitsE : Except SearchErr (List SearchHit) :=
    match mode with
    | .vector => vector_search vres search_limit
    | .keyword =>
      .ok (keyword_search lnq low self.all_chunks query.data search_limit)
    | .hybrid =>
      hybrid_search lnq low self.all_chunks vres query.data search_limit
  match hitsE with
  | .error e => .error e
  | .ok hits0 =>
    let hits := match options.doc_type with
      | some filter_type => hits0.filter (docTypeRetain filter_type)
      | none => hits0
    let results := match aggregate_by with
      | .content => hits.take limit
      | .doc => aggregate_by_doc hits limit
      | .folder => aggregate_by_folder hits limit
    let mode_str := match mode with
      | .vector => "vector"
      | .keyword => "keyword"
      | .hybrid => "hybrid"
    let aggregate_str := match aggregate_by with
      | .content => "content"
      | .doc => "doc"
      | .folder => "folder"
    .ok { query := query, count := results.length, results := results,
          mode := some mode_str, aggregate_by := some aggregate_str,
          index_missing := none, error := none }

/-- Create a new searcher (`Searcher::new`).  The three effectful steps —
`vector_store.initialize()`, `EmbeddingClient::new(..)`, and
`vector_store.get_all_chunks()` — are modelled by their outcomes.  The
first two are propagated with `?`; the chunk preload result is consumed
with `unwrap_or_default()`. -/
def Searcher.new (initRes : Except SearchErr Unit)
    (clientRes : Except SearchErr Unit)
    (chunksRes : Except SearchErr (List SearchHit)) :
    Except SearchErr Searcher :=
  match initRes with
  | .error e => .error e
  | .ok _ =>
    match clientRes with
    | .error e => .error e
    | .ok _ =>
      let all_chunks := match chunksRes with
        | .ok chunks => chunks
        | .error _ => []
      .ok { all_chunks := all_chunks }

/-! ### Helper lemmas: tokenizer -/

theorem isChineseChar_not_alnum (c : Char) (h : isChineseChar c = true) :
    isAsciiAlphanumeric c = false := by
  simp only [isChineseChar, Bool.and_eq_true, decide_eq_true_eq] at h
  simp only [isAsciiAlphanumeric, Bool.or_eq_false_iff, Bool.and_eq_false_iff,
    decide_eq_false_iff_not, not_le]
  omega

theorem add_chinese_tokens_length :
    ∀ cs : List Char, (add_chinese_tokens cs).length = 2 * cs.length - 1
  | [] => rfl
  | [_] => rfl
  | c :: d :: rest => by
    have ih := add_chinese_tokens_length (d :: rest)
    simp only [add_chinese_tokens, List.length_cons] at ih ⊢
    omega

theorem tokenizeLoop_all_cjk :
    ∀ (cs chn : List Char) (toks : List (List Char)),
      (∀ c ∈ cs, isChineseChar c = true) →
      tokenizeLoop cs [] chn toks = flushCJK (chn ++ cs) toks := by
  intro cs
  induction cs with
  | nil =>
    intro chn toks _
    simp [tokenizeLoop, flushLatin]
  | cons c cs ih =>
    intro chn toks h
    have hc : isChineseChar c = true := h c (List.mem_cons_self c cs)
    have hrest : ∀ x ∈ cs, isChineseChar x = true :=
      fun x hx => h x (List.mem_cons_of_mem c hx)
    simp only [tokenizeLoop, isChineseChar_not_alnum c hc, hc, if_true,
      Bool.false_eq_true, if_false, flushLatin, List.length_nil]
    rw [if_neg (by omega)]
    rw [ih (chn ++ [c]) toks hrest]
    simp

/-- C6: for every input consisting solely of CJK characters
(U+4E00..U+9FFF), with length `n ≥ 2` and unchanged by lowercasing (CJK
characters have no case), `tokenize` emits exactly `n + (n − 1)` tokens:
each single character plus each adjacent bigram. -/
theorem C6_cjk_token_count (low : List Char → List Char) (cs : List Char)
    (hcjk : ∀ c ∈ cs, isChineseChar c = true) (hlen : 2 ≤ cs.length)
    (hlow : low cs = cs) :
    (tokenize low cs).length = cs.length + (cs.length - 1) := by
  have hne : cs ≠ [] := by
    intro h
    rw [h] at hlen
    simp at hlen
  unfold tokenize
  rw [if_neg hne, hlow, tokenizeLoop_all_cjk cs [] [] hcjk]
  simp only [List.nil_append, flushCJK, if_neg hne, List.nil_append]
  rw [add_chinese_tokens_length]
  omega

/-- Witness for C6 at the concrete CJK string `中文`. -/
theorem C6_witness :
    (∀ c ∈ ['中', '文'], isChineseChar c = true) ∧
    2 ≤ (['中', '文'] : List Char).length ∧
    id ['中', '文'] = ['中', '文'] ∧
    (tokenize id ['中', '文']).length =
      (['中', '文'] : List Char).length +
        ((['中', '文'] : List Char).length - 1) :=
  ⟨by decide, by decide, rfl,
    C6_cjk_token_count id ['中', '文'] (by decide) (by decide) rfl⟩

/-- C9: the tokenizer lowercases internally, so feeding it pre-lowercased
input yields the same token sequence.  `low` models `str::to_lowercase`,
which is idempotent and maps the empty string to itself. -/
theorem C9_tokenize_lowercase_invariant (low : List Char → List Char)
    (hidem : ∀ s, low (low s) = low s) (hnil : low [] = [])
    (x : List Char) : tokenize low x = tokenize low (low x) := by
  unfold tokenize
  by_cases hx : x = []
  · subst hx
    rw [hnil]
    simp
  · rw [if_neg hx]
    by_cases hlx : low x = []
    · rw [if_pos hlx, hlx]
      rfl
    · rw [if_neg hlx, hidem]

/-- Witness for C9 with the identity as the (idempotent) lowercase map. -/
theorem C9_witness : tokenize id ['A', 'b'] = tokenize id (id ['A', 'b']) :=
  C9_tokenize_lowercase_invariant id (fun _ => rfl) rfl ['A', 'b']

/-! ### C3: `Searcher::new` error propagation -/

/-- C3 counterexample: when initialization and client construction succeed
but the chunk preload (`get_all_chunks`) fails, `Searcher::new` does NOT
return an error — `unwrap_or_default()` swallows the failure and the
searcher is built with an empty corpus. -/
theorem C3_counterexample :
    Searcher.new (.ok ()) (.ok ())
        (.error (.vectorStore "get_all_chunks failed")) =
      .ok { all_chunks := [] } ∧
    ∀ e : SearchErr,
      Searcher.new (.ok ()) (.ok ())
          (.error (.vectorStore "get_all_chunks failed")) ≠ .error e := by
  refine ⟨rfl, fun e h => ?_⟩
  simp [Searcher.new] at h

/-- C3 (amended): failures of vector-store initialization or embedding
client construction propagate out of `Searcher::new` as structured errors;
a failing chunk preload is swallowed by `unwrap_or_default()` and `new`
succeeds with an empty chunk corpus. -/
theorem C3_new_error_propagation :
    (∀ (e : SearchErr) (c : Except SearchErr Unit)
        (k : Except SearchErr (List SearchHit)),
      Searcher.new (.error e) c k = .error e) ∧
    (∀ (e : SearchErr) (k : Except SearchErr (List SearchHit)),
      Searcher.new (.ok ()) (.error e) k = .error e) ∧
    (∀ e : SearchErr,
      Searcher.new (.ok ()) (.ok ()) (.error e) = .ok { all_chunks := [] }) ∧
    (∀ cs : List SearchHit,
      Searcher.new (.ok ()) (.ok ()) (.ok cs) = .ok { all_chunks := cs }) :=
  ⟨fun _ _ _ => rfl, fun _ _ => rfl, fun _ => rfl, fun _ => rfl⟩

/-! ### C5: the `doc_type` filter -/

/-- C5: the doc_type filter keeps exactly the `"idea"`-tagged hits under
option `"idea"`, exactly the `"doc"`-or-untagged hits under option
`"doc"`, and every hit (unchanged, in order) under any other option. -/
theorem C5_doc_type_filter (hits : List SearchHit) (ft : String) :
    hits.filter (docTypeRetain ft) =
      if ft = "idea" then
        hits.filter (fun h => decide (h.doc_type = some "idea"))
      else if ft = "doc" then
        hits.filter (fun h =>
          decide (h.doc_type = some "doc" ∨ h.doc_type = none))
      else hits := by
  by_cases hidea : ft = "idea"
  · subst hidea
    rw [if_pos rfl]
    apply List.filter_congr
    intro h _
    simp [docTypeRetain]
  · rw [if_neg hidea]
    by_cases hdoc : ft = "doc"
    · subst hdoc
      rw [if_pos rfl]
      apply List.filter_congr
      intro h _
      simp only [docTypeRetain, if_neg hidea, if_pos rfl]
      cases hdt : h.doc_type with
      | none => simp [Option.getD]
      | some s => simp [Option.getD]
    · rw [if_neg hdoc]
      have hall : ∀ h ∈ hits, docTypeRetain ft h = true := by
        intro h _
        simp [docTypeRetain, hidea, hdoc]
      calc hits.filter (docTypeRetain ft)
          = hits.filter (fun _ => true) := List.filter_congr hall
        _ = hits := List.filter_true hits

/-! ### C8: empty-query short circuit -/

/-- C8: when the trimmed query is empty, `search` returns the successful
empty result (count 0, trimmed query echoed) regardless of the corpus, the
index probe, or the vector/embedding oracle — in particular those
collaborators are never consulted. -/
theorem C8_empty_query_short_circuit (self : Searcher) (lnq : ℚ → ℚ)
    (low : List Char → List Char) (index_exists : Bool)
    (vres : Nat → Except SearchErr (List SearchHit))
    (options : SearchOptions) (h : rustTrim options.query = "") :
    self.search lnq low index_exists vres options =
      .ok (SearchResults.empty (rustTrim options.query)) := by
  simp [Searcher.search, h]

/-- Witness for C8 at an all-whitespace query. -/
theorem C8_witness :
    rustTrim "   " = "" ∧
    (Searcher.mk [] : Searcher).search (fun x => x) id true
        (fun _ => .ok [])
        { query := "   ", mode := .vector, limit := 3,
          aggregate_by := .content, doc_type := none } =
      .ok (SearchResults.empty (rustTrim "   ")) :=
  ⟨by decide,
    C8_empty_query_short_circuit ⟨[]⟩ (fun x => x) id true (fun _ => .ok [])
      { query := "   ", mode := .vector, limit := 3,
        aggregate_by := .content, doc_type := none } (by decide)⟩

/-! ### Helper lemmas: document / folder aggregation -/

theorem bumpDoc_file_path (hit : SearchHit) (agg : DocAgg) :
    (bumpDoc hit agg).file_path = agg.file_path := by
  simp only [bumpDoc]
  split <;> rfl

theorem bumpDoc_display_name (hit : SearchHit) (agg : DocAgg) :
    (bumpDoc hit agg).display_name = agg.display_name := by
  simp only [bumpDoc]
  split <;> rfl

theorem bumpDoc_top_score (hit : SearchHit) (agg : DocAgg) :
    (bumpDoc hit agg).top_score =
      if agg.top_score < hit.score then hit.score else agg.top_score := by
  simp only [bumpDoc]
  split <;> rfl

theorem bumpFolder_folder_path (hit : SearchHit) (agg : FolderAgg) :
    (bumpFolder hit agg).folder_path = agg.folder_path := by
  simp only [bumpFolder]
  split <;> rfl

theorem bumpFolder_top_score (hit : SearchHit) (agg : FolderAgg) :
    (bumpFolder hit agg).top_score =
      if agg.top_score < hit.score then hit.score else agg.top_score := by
  simp only [bumpFolder]
  split <;> rfl

/-- Preservation of a per-entry invariant by one `docAggInsert` step. -/
theorem docAggInsert_inv (Q : String × DocAgg → Prop) (hit : SearchHit)
    (hbump : ∀ agg, Q (hit.file_path, agg) →
      Q (hit.file_path, bumpDoc hit agg))
    (hfresh : Q (hit.file_path, bumpDoc hit
      { file_path := hit.file_path,
        display_name := displayNameOfDoc hit.file_path,
        top_score := 0, hit_count := 0, top_chunk := hit })) :
    ∀ m, (∀ p ∈ m, Q p) → ∀ p ∈ docAggInsert hit m, Q p := by
  intro m
  induction m with
  | nil =>
    intro _ p hp
    simp only [docAggInsert, List.mem_singleton] at hp
    exact hp ▸ hfresh
  | cons q rest ih =>
    intro hm p hp
    obtain ⟨k, agg⟩ := q
    simp only [docAggInsert] at hp
    by_cases hk : k = hit.file_path
    · rw [if_pos hk] at hp
      subst hk
      rcases List.mem_cons.mp hp with h1 | h2
      · exact h1 ▸ hbump agg (hm _ (List.mem_cons_self _ _))
      · exact hm _ (List.mem_cons_of_mem _ h2)
    · rw [if_neg hk] at hp
      rcases List.mem_cons.mp hp with h1 | h2
      · exact h1 ▸ hm _ (List.mem_cons_self _ _)
      · exact ih (fun r hr => hm r (List.mem_cons_of_mem _ hr)) p h2

/-- Preservation of a per-entry invariant by the document-map fold. -/
theorem docFold_inv (Q : String × DocAgg → Prop) :
    ∀ (hits : List SearchHit) (m : List (String × DocAgg)),
      (∀ hit ∈ hits,
        (∀ agg, Q (hit.file_path, agg) →
          Q (hit.file_path, bumpDoc hit agg)) ∧
        Q (hit.file_path, bumpDoc hit
          { file_path := hit.file_path,
            display_name := displayNameOfDoc hit.file_path,
            top_score := 0, hit_count := 0, top_chunk := hit })) →
      (∀ p ∈ m, Q p) →
      ∀ p ∈ hits.foldl (fun m hit => docAggInsert hit m) m, Q p := by
  intro hits
  induction hits with
  | nil =>
    intro m _ hm p hp
    simp only [List.foldl_nil] at hp
    exact hm p hp
  | cons x xs ih =>
    intro m hall hm p hp
    simp only [List.foldl_cons] at hp
    refine ih (docAggInsert x m)
      (fun h hh => hall h (List.mem_cons_of_mem _ hh)) ?_ p hp
    exact docAggInsert_inv Q x (hall x (List.mem_cons_self _ _)).1
      (hall x (List.mem_cons_self _ _)).2 m hm

/-- Preservation of a per-entry invariant by one `folderAggInsert` step. -/
theorem folderAggInsert_inv (Q : String × FolderAgg → Prop) (hit : SearchHit)
    (hbump : ∀ agg, Q (folderOf hit.file_path, agg) →
      Q (folderOf hit.file_path, bumpFolder hit agg))
    (hfresh : Q (folderOf hit.file_path, bumpFolder hit
      { folder_path := folderOf hit.file_path,
        display_name := folderDisplayName (folderOf hit.file_path),
        top_score := 0, hit_count := 0, docs := [], top_chunk := hit })) :
    ∀ m, (∀ p ∈ m, Q p) → ∀ p ∈ folderAggInsert hit m, Q p := by
  intro m
  induction m with
  | nil =>
    intro _ p hp
    simp only [folderAggInsert, List.mem_singleton] at hp
    exact hp ▸ hfresh
  | cons q rest ih =>
    intro hm p hp
    obtain ⟨k, agg⟩ := q
    simp only [folderAggInsert] at hp
    by_cases hk : k = folderOf hit.file_path
    · rw [if_pos hk] at hp
      subst hk
      rcases List.mem_cons.mp hp with h1 | h2
      · exact h1 ▸ hbump agg (hm _ (List.mem_cons_self _ _))
      · exact hm _ (List.mem_cons_of_mem _ h2)
    · rw [if_neg hk] at hp
      rcases List.mem_cons.mp hp with h1 | h2
      · exact h1 ▸ hm _ (List.mem_cons_self _ _)
      · exact ih (fun r hr => hm r (List.mem_cons_of_mem _ hr)) p h2

/-- Preservation of a per-entry invariant by the folder-map fold. -/
theorem folderFold_inv (Q : String × FolderAgg → Prop) :
    ∀ (hits : List SearchHit) (m : List (String × FolderAgg)),
      (∀ hit ∈ hits,
        (∀ agg, Q (folderOf hit.file_path, agg) →
          Q (folderOf hit.file_path, bumpFolder hit agg)) ∧
        Q (folderOf hit.file_path, bumpFolder hit
          { folder_path := folderOf hit.file_path,
            display_name := folderDisplayName (folderOf hit.file_path),
            top_score := 0, hit_count := 0, docs := [], top_chunk := hit })) →
      (∀ p ∈ m, Q p) →
      ∀ p ∈ hits.foldl (fun m hit => folderAggInsert hit m) m, Q p := by
  intro hits
  induction hits with
  | nil =>
    intro m _ hm p hp
    simp only [List.foldl_nil] at hp
    exact hm p hp
  | cons x xs ih =>
    intro m hall hm p hp
    simp only [List.foldl_cons] at hp
    refine ih (folderAggInsert x m)
      (fun h hh => hall h (List.mem_cons_of_mem _ hh)) ?_ p hp
    exact folderAggInsert_inv Q x (hall x (List.mem_cons_self _ _)).1
      (hall x (List.mem_cons_self _ _)).2 m hm

/-- C10: every hit produced by `aggregate_by_doc` carries as
`display_name` the segment of its group's `file_path` after the last
`'/'` with every trailing `".md"` suffix stripped; in particular repeated
suffixes are all removed: `"a/notes.md.md"` yields `"notes"`, not
`"notes.md"`. -/
theorem C10_display_name_doc_aggregation :
    (∀ (hits : List SearchHit) (limit : Nat) (g : SearchHit),
      g ∈ aggregate_by_doc hits limit →
      ∃ h ∈ hits, h.file_path = g.file_path ∧
        g.display_name = displayNameOfDoc h.file_path) ∧
    displayNameOfDoc "a/notes.md.md" = "notes" ∧
    displayNameOfDoc "a/notes.md.md" ≠ "notes.md" := by
  refine ⟨?_, by decide, by decide⟩
  intro hits limit g hg
  unfold aggregate_by_doc at hg
  have hg1 := List.mem_of_mem_take hg
  rw [mem_sortDesc] at hg1
  obtain ⟨p, hp, hgp⟩ := List.mem_map.mp hg1
  have hQ := docFold_inv
    (fun p => p.2.file_path = p.1 ∧
      p.2.display_name = displayNameOfDoc p.1 ∧
      ∃ h ∈ hits, h.file_path = p.1)
    hits [] ?_ (by simp) p hp
  · obtain ⟨hfp, hdn, h, hh, hhfp⟩ := hQ
    refine ⟨h, hh, ?_, ?_⟩
    · rw [← hgp]
      show h.file_path = p.2.file_path
      rw [hfp, hhfp]
    · rw [← hgp]
      show p.2.display_name = displayNameOfDoc h.file_path
      rw [hdn, hhfp]
  · intro hit hh
    refine ⟨?_, ?_⟩
    · rintro agg ⟨h1, h2, h3⟩
      exact ⟨(bumpDoc_file_path hit agg).trans h1,
        (bumpDoc_display_name hit agg).trans h2, h3⟩
    · exact ⟨bumpDoc_file_path hit _, bumpDoc_display_name hit _,
        hit, hh, rfl⟩

/-- Input hit used by witnesses: a chunk of `a/notes.md.md` with score 0. -/
def wDocHit : SearchHit :=
  { file_path := "a/notes.md.md", display_name := "", content := "c",
    heading_path := none, section_title := none, line_start := none,
    line_end := none, score := 0, matched_by := .keyword, hit_count := none,
    doc_count := none, folder_path := none, aggregate_type := none,
    doc_type := none, entry_id := none, entry_date := none,
    entry_created_at := none }

/-- The document-aggregate of `[wDocHit]`. -/
def wDocOut : SearchHit :=
  { file_path := "a/notes.md.md", display_name := "notes", content := "c",
    heading_path := none, section_title := none, line_start := none,
    line_end := none, score := 0, matched_by := .keyword,
    hit_count := some 1, doc_count := none, folder_path := none,
    aggregate_type := some "doc", doc_type := none, entry_id := none,
    entry_date := none, entry_created_at := none }

theorem aggregate_wDocHit_eval : aggregate_by_doc [wDocHit] 3 = [wDocOut] := by
  norm_num [aggregate_by_doc, docAggInsert, bumpDoc, displayNameOfDoc,
    trimEndMd, lastSegment, stripMdReversed, sortDesc, insertDesc, ratMin,
    wDocHit, wDocOut]

/-- Witness for C10 on the concrete one-hit corpus. -/
theorem C10_witness :
    ∃ h ∈ [wDocHit], h.file_path = wDocOut.file_path ∧
      wDocOut.display_name = displayNameOfDoc h.file_path :=
  C10_display_name_doc_aggregation.1 [wDocHit] 3 wDocOut
    (by rw [aggregate_wDocHit_eval]; exact List.mem_singleton_self _)

/-- C4 (amended): on hit lists with non-negative scores — as produced by
the retrieval pipeline — every group's aggregated composite score is at
most the maximum member score, for both document and folder rollups. -/
theorem C4_aggregation_ceiling (hits : List SearchHit) (limit : Nat)
    (hnn : ∀ h ∈ hits, 0 ≤ h.score) :
    (∀ g ∈ aggregate_by_doc hits limit,
      ∃ h ∈ hits, h.file_path = g.file_path ∧ g.score ≤ h.score) ∧
    (∀ g ∈ aggregate_by_folder hits limit,
      ∃ h ∈ hits, g.folder_path = some (folderOf h.file_path) ∧
        g.score ≤ h.score) := by
  constructor
  · intro g hg
    unfold aggregate_by_doc at hg
    have hg1 := List.mem_of_mem_take hg
    rw [mem_sortDesc] at hg1
    obtain ⟨p, hp, hgp⟩ := List.mem_map.mp hg1
    have hQ := docFold_inv
      (fun p => p.2.file_path = p.1 ∧ 0 ≤ p.2.top_score ∧
        ∃ h ∈ hits, h.file_path = p.1 ∧ p.2.top_score ≤ h.score)
      hits [] ?_ (by simp) p hp
    · obtain ⟨hfp, htop0, h, hh, hhfp, hhle⟩ := hQ
      refine ⟨h, hh, ?_, ?_⟩
      · rw [← hgp]
        show h.file_path = p.2.file_path
        rw [hfp, hhfp]
      · rw [← hgp]
        show p.2.top_score * 0.6 +
          ratMin ((p.2.hit_count : ℚ) / 5) 1 * p.2.top_score * 0.4 ≤ h.score
        have hb1 : ratMin ((p.2.hit_count : ℚ) / 5) 1 ≤ 1 :=
          ratMin_le_right _ _
        linarith [mul_nonneg (sub_nonneg.mpr hb1) htop0]
    · intro hit hh
      constructor
      · rintro agg ⟨h1, h2, h, hmem, hfp, hle⟩
        refine ⟨(bumpDoc_file_path hit agg).trans h1, ?_, ?_⟩
        · rw [bumpDoc_top_score]
          split
          · exact hnn hit hh
          · exact h2
        · rw [bumpDoc_top_score]
          split
          · exact ⟨hit, hh, rfl, le_refl _⟩
          · exact ⟨h, hmem, hfp, hle⟩
      · refine ⟨bumpDoc_file_path hit _, ?_, ?_⟩
        · rw [bumpDoc_top_score]
          split
          · exact hnn hit hh
          · exact le_refl 0
        · rw [bumpDoc_top_score]
          split
          · exact ⟨hit, hh, rfl, le_refl _⟩
          · exact ⟨hit, hh, rfl, hnn hit hh⟩
  · intro g hg
    unfold aggregate_by_folder at hg
    have hg1 := List.mem_of_mem_take hg
    rw [mem_sortDesc] at hg1
    obtain ⟨p, hp, hgp⟩ := List.mem_map.mp hg1
    have hQ := folderFold_inv
      (fun p => p.2.folder_path = p.1 ∧ 0 ≤ p.2.top_score ∧
        ∃ h ∈ hits, folderOf h.file_path = p.1 ∧ p.2.top_score ≤ h.score)
      hits [] ?_ (by simp) p hp
    · obtain ⟨hfp, htop0, h, hh, hhfp, hhle⟩ := hQ
      refine ⟨h, hh, ?_, ?_⟩
      · rw [← hgp]
        show some p.2.folder_path = some (folderOf h.file_path)
        rw [hfp, hhfp]
      · rw [← hgp]
        show p.2.top_score * 0.5 +
          ratMin ((p.2.hit_count : ℚ) / 10) 1 * p.2.top_score * 0.3 +
          ratMin ((p.2.docs.length : ℚ) / 3) 1 * p.2.top_score * 0.2 ≤
            h.score
        have hb1 : ratMin ((p.2.hit_count : ℚ) / 10) 1 ≤ 1 :=
          ratMin_le_right _ _
        have hb2 : ratMin ((p.2.docs.length : ℚ) / 3) 1 ≤ 1 :=
          ratMin_le_right _ _
        linarith [mul_nonneg (sub_nonneg.mpr hb1) htop0,
          mul_nonneg (sub_nonneg.mpr hb2) htop0]
    · intro hit hh
      constructor
      · rintro agg ⟨h1, h2, h, hmem, hfp, hle⟩
        refine ⟨(bumpFolder_folder_path hit agg).trans h1, ?_, ?_⟩
        · rw [bumpFolder_top_score]
          split
          · exact hnn hit hh
          · exact h2
        · rw [bumpFolder_top_score]
          split
          · exact ⟨hit, hh, rfl, le_refl _⟩
          · exact ⟨h, hmem, hfp, hle⟩
      · refine ⟨bumpFolder_folder_path hit _, ?_, ?_⟩
        · rw [bumpFolder_top_score]
          split
          · exact hnn hit hh
          · exact le_refl 0
        · rw [bumpFolder_top_score]
          split
          · exact ⟨hit, hh, rfl, le_refl _⟩
          · exact ⟨hit, hh, rfl, hnn hit hh⟩

/-- A hit with a negative score (possible for raw vector-store scores). -/
def negHit : SearchHit :=
  { file_path := "x/n.md", display_name := "", content := "c",
    heading_path := none, section_title := none, line_start := none,
    line_end := none, score := -1, matched_by := .vector, hit_count := none,
    doc_count := none, folder_path := none, aggregate_type := none,
    doc_type := none, entry_id := none, entry_date := none,
    entry_created_at := none }

/-- The document-aggregate of `[negHit]`: its score is 0 because
`top_score` starts at 0 and `hit.score > top_score` never fires. -/
def negOut : SearchHit :=
  { file_path := "x/n.md", display_name := "n", content := "c",
    heading_path := none, section_title := none, line_start := none,
    line_end := none, score := 0, matched_by := .vector,
    hit_count := some 1, doc_count := none, folder_path := none,
    aggregate_type := some "doc", doc_type := none, entry_id := none,
    entry_date := none, entry_created_at := none }

theorem aggregate_negHit_eval : aggregate_by_doc [negHit] 10 = [negOut] := by
  norm_num [aggregate_by_doc, docAggInsert, bumpDoc, displayNameOfDoc,
    trimEndMd, lastSegment, stripMdReversed, sortDesc, insertDesc, ratMin,
    negHit, negOut]

/-- C4 counterexample: for a group whose members all have negative score,
the aggregated score (0) strictly exceeds every member's score, so the
claim's unconditional ceiling fails. -/
theorem C4_counterexample :
    ∃ g ∈ aggregate_by_doc [negHit] 10,
      ∀ h ∈ [negHit], h.file_path = g.file_path → h.score < g.score := by
  rw [aggregate_negHit_eval]
  refine ⟨negOut, List.mem_singleton_self _, ?_⟩
  intro h hh _
  rw [List.mem_singleton] at hh
  subst hh
  norm_num [negHit, negOut]

/-- Witness for C4 on a concrete non-negative corpus. -/
theorem C4_witness :
    (∀ h ∈ [wDocHit], 0 ≤ h.score) ∧
    ((∀ g ∈ aggregate_by_doc [wDocHit] 3,
        ∃ h ∈ [wDocHit], h.file_path = g.file_path ∧ g.score ≤ h.score) ∧
      (∀ g ∈ aggregate_by_folder [wDocHit] 3,
        ∃ h ∈ [wDocHit], g.folder_path = some (folderOf h.file_path) ∧
          g.score ≤ h.score)) :=
  ⟨by decide, C4_aggregation_ceiling [wDocHit] 3 (by decide)⟩

/-! ### C7: limit respect -/

theorem length_aggregate_by_doc_le (hits : List SearchHit) (limit : Nat) :
    (aggregate_by_doc hits limit).length ≤ limit := by
  unfold aggregate_by_doc
  apply List.length_take_le

theorem length_aggregate_by_folder_le (hits : List SearchHit) (limit : Nat) :
    (aggregate_by_folder hits limit).length ≤ limit := by
  unfold aggregate_by_folder
  apply List.length_take_le

theorem length_rrf_fusion_le (v k : List SearchHit) (limit : Nat) :
    (rrf_fusion v k limit).length ≤ limit := by
  unfold rrf_fusion
  apply List.length_take_le

/-- C7: every successful `search` response carries at most `limit`
results, whatever the query, mode, aggregation, doc_type filter, corpus
and collaborator outcomes. -/
theorem C7_limit_respect (self : Searcher) (lnq : ℚ → ℚ)
    (low : List Char → List Char) (index_exists : Bool)
    (vres : Nat → Except SearchErr (List SearchHit))
    (options : SearchOptions) (r : SearchResults)
    (h : self.search lnq low index_exists vres options = .ok r) :
    r.results.length ≤ options.limit := by
  simp only [Searcher.search] at h
  split at h
  · injection h with h'
    subst h'
    simp [SearchResults.empty]
  · split at h
    · injection h with h'
      subst h'
      simp [SearchResults.index_not_built]
    · split at h
      · exact Except.noConfusion h
      · injection h with h'
        subst h'
        split
        · apply List.length_take_le
        · apply length_aggregate_by_doc_le
        · apply length_aggregate_by_folder_le

/-- The response of the concrete witness run for C7. -/
def wRes : SearchResults :=
  { query := "hello", count := 0, results := [], mode := some "keyword",
    aggregate_by := some "content", index_missing := none, error := none }

/-- Witness for C7: a keyword-mode search over an empty corpus. -/
theorem C7_witness :
    (Searcher.mk [] : Searcher).search (fun x => x) id true
        (fun _ => .ok [])
        { query := "hello", mode := .keyword, limit := 2,
          aggregate_by := .content, doc_type := none } = .ok wRes ∧
    wRes.results.length ≤ 2 :=
  ⟨rfl,
    C7_limit_respect ⟨[]⟩ (fun x => x) id true (fun _ => .ok [])
      { query := "hello", mode := .keyword, limit := 2,
        aggregate_by := .content, doc_type := none } wRes rfl⟩

/-! ### C1: BM25 normalization -/

/-- The spec of the normalization stage on an all-positive scored list:
the first output hit has score exactly 1 and every output score lies in
`(0, 1]`. -/
theorem normalizeStage_spec (scored : List (ℚ × SearchHit)) (limit : Nat)
    (hpos : ∀ p ∈ scored, 0 < p.1) (h0 : SearchHit) (t : List SearchHit)
    (heq : normalizeStage scored limit = h0 :: t) :
    h0.score = 1 ∧
    ∀ x ∈ normalizeStage scored limit, 0 < x.score ∧ x.score ≤ 1 := by
  unfold normalizeStage at heq ⊢
  have hpw := pairwise_sortDesc (fun p : ℚ × SearchHit => p.1) scored
  have hmem := mem_sortDesc (fun p : ℚ × SearchHit => p.1) scored
  generalize hS : sortDesc (fun p : ℚ × SearchHit => p.1) scored = S
    at heq hpw hmem ⊢
  rcases S with _ | ⟨q0, rest⟩
  · simp at heq
  · have hq0pos : 0 < q0.1 :=
      hpos q0 ((hmem q0).mp (List.mem_cons_self _ _))
    have hmax : ∀ z ∈ q0 :: rest, z.1 ≤ q0.1 := by
      rw [List.pairwise_cons] at hpw
      intro z hz
      rcases List.mem_cons.mp hz with rfl | hz'
      · exact le_refl _
      · exact hpw.1 z hz'
    have hms : maxScoreOf (q0 :: rest) = q0.1 := rfl
    simp only [hms, hq0pos, if_true] at heq ⊢
    constructor
    · cases limit with
      | zero => simp at heq
      | succ n =>
        rw [List.take_succ_cons, List.map_cons] at heq
        injection heq with h1 _
        subst h1
        show q0.1 / q0.1 = 1
        exact div_self (ne_of_gt hq0pos)
    · intro x hx
      obtain ⟨p, hp, hxp⟩ := List.mem_map.mp hx
      have hpmem : p ∈ q0 :: rest := List.mem_of_mem_take hp
      have hppos : 0 < p.1 := hpos p ((hmem p).mp hpmem)
      have hple : p.1 ≤ q0.1 := hmax p hpmem
      rw [← hxp]
      exact ⟨div_pos hppos hq0pos, (div_le_one hq0pos).mpr hple⟩

/-- The survivors of the `score > 0` filter in `keyword_search` carry
positive raw scores. -/
theorem pos_of_scoredHit {s : ℚ} {h : SearchHit} {p : ℚ × SearchHit}
    (hfa : (if 0 < s then some (s, h) else none) = some p) : 0 < p.1 := by
  split at hfa
  · injection hfa with h'
    rw [← h']
    assumption
  · exact Option.noConfusion hfa

/-- Every run of `keyword_search` either returns `[]` or is the
normalization stage of a list of strictly positive raw BM25 scores (the
`score > 0` filter). -/
theorem keyword_search_shape (lnq : ℚ → ℚ) (low : List Char → List Char)
    (all_chunks : List SearchHit) (query : List Char) (limit : Nat) :
    keyword_search lnq low all_chunks query limit = [] ∨
    ∃ scored : List (ℚ × SearchHit),
      (∀ p ∈ scored, 0 < p.1) ∧
      keyword_search lnq low all_chunks query limit =
        normalizeStage scored limit := by
  simp only [keyword_search]
  split
  · exact Or.inl rfl
  · right
    refine ⟨_, ?_, rfl⟩
    intro p hp
    rw [List.mem_filterMap] at hp
    obtain ⟨a, _, hfa⟩ := hp
    exact pos_of_scoredHit hfa

/-- C1: whenever `keyword_search` returns a non-empty list, the first
(top-ranked) hit has score exactly 1 and every returned score lies in
`(0, 1]` (in the exact-rational model of `f32`; the maximum raw score is
automatically positive because only positive scores survive the filter). -/
theorem C1_bm25_normalization (lnq : ℚ → ℚ) (low : List Char → List Char)
    (all_chunks : List SearchHit) (query : List Char) (limit : Nat)
    (h0 : SearchHit) (t : List SearchHit)
    (heq : keyword_search lnq low all_chunks query limit = h0 :: t) :
    h0.score = 1 ∧
    ∀ x ∈ keyword_search lnq low all_chunks query limit,
      0 < x.score ∧ x.score ≤ 1 := by
  rcases keyword_search_shape lnq low all_chunks query limit with
    hnil | ⟨scored, hpos, hshape⟩
  · rw [hnil] at heq
    exact List.noConfusion heq
  · rw [hshape] at heq ⊢
    exact normalizeStage_spec scored limit hpos h0 t heq

/-- Input chunk of the C1 witness corpus. -/
def wKHit : SearchHit :=
  { file_path := "a/x.md", display_name := "", content := "aa",
    heading_path := none, section_title := none, line_start := none,
    line_end := none, score := 0, matched_by := .vector, hit_count := none,
    doc_count := none, folder_path := none, aggregate_type := none,
    doc_type := none, entry_id := none, entry_date := none,
    entry_created_at := none }

/-- The single keyword hit returned on the C1 witness corpus. -/
def wKOut : SearchHit :=
  { file_path := "a/x.md", display_name := "", content := "aa",
    heading_path := none, section_title := none, line_start := none,
    line_end := none, score := 1, matched_by := .keyword, hit_count := none,
    doc_count := none, folder_path := none, aggregate_type := none,
    doc_type := none, entry_id := none, entry_date := none,
    entry_created_at := none }

theorem keyword_search_witness_eval :
    keyword_search (fun _ => (1 : ℚ)) id [wKHit] ['a', 'a'] 5 =
      wKOut :: [] := by
  have h1 : tokenize id ['a', 'a'] = [['a', 'a']] := by decide
  have h2 : tokenize id ['a', 'a', ' '] = [['a', 'a']] := by decide
  simp only [keyword_search, normalizeStage, wKHit]
  norm_num +decide [h1, h2, count_tokens, List.count_cons, List.count_nil,
    List.filterMap_cons, List.filterMap_nil, List.zip_cons_cons,
    List.zip_nil_right, sortDesc, insertDesc, wKOut]

/-- Witness for C1 on a one-chunk corpus where the query matches. -/
theorem C1_witness :
    keyword_search (fun _ => (1 : ℚ)) id [wKHit] ['a', 'a'] 5 =
      wKOut :: [] ∧
    wKOut.score = 1 ∧
    ∀ x ∈ keyword_search (fun _ => (1 : ℚ)) id [wKHit] ['a', 'a'] 5,
      0 < x.score ∧ x.score ≤ 1 :=
  ⟨keyword_search_witness_eval,
    (C1_bm25_normalization (fun _ => (1 : ℚ)) id [wKHit] ['a', 'a'] 5 wKOut
      [] keyword_search_witness_eval).1,
    (C1_bm25_normalization (fun _ => (1 : ℚ)) id [wKHit] ['a', 'a'] 5 wKOut
      [] keyword_search_witness_eval).2⟩

/-! ### C2: `matched_by` after RRF fusion -/

/-- Lookup in the association-list model of the RRF `HashMap`. -/
def alookup (k : String) : List (String × FusedEntry) → Option FusedEntry
  | [] => none
  | (k1, e) :: rest => if k1 = k then some e else alookup k rest

/-- Number of hits of a list whose RRF key is `k`. -/
def keyCount (k : String) (hits : List SearchHit) : Nat :=
  (hits.filter (fun h => decide (rrfKey h = k))).length

theorem keyCount_nil (k : String) : keyCount k [] = 0 := rfl

theorem keyCount_cons (k : String) (x : SearchHit) (xs : List SearchHit) :
    keyCount k (x :: xs) =
      if rrfKey x = k then keyCount k xs + 1 else keyCount k xs := by
  by_cases h : rrfKey x = k
  · simp [keyCount, List.filter_cons, h]
  · simp [keyCount, List.filter_cons, h]

theorem rrfKey_matched_by (x : SearchHit) (m : MatchType) :
    rrfKey { x with matched_by := m } = rrfKey x := rfl

/-- Lookup of a different key is unaffected by `rrfInsert`. -/
theorem alookup_rrfInsert_other (key : String) (s : ℚ) (src : String)
    (hit : SearchHit) (k : String) (hk : k ≠ key) :
    ∀ m, alookup k (rrfInsert key s src hit m) = alookup k m := by
  intro m
  induction m with
  | nil =>
    simp only [rrfInsert, alookup]
    rw [if_neg (fun h => hk h.symm)]
  | cons q rest ih =>
    obtain ⟨k1, e⟩ := q
    by_cases h1 : k1 = key
    · subst h1
      simp only [rrfInsert, if_pos rfl, alookup]
      rw [if_neg (fun h => hk h.symm), if_neg (fun h => hk h.symm)]
    · simp only [rrfInsert, if_neg h1, alookup]
      by_cases h2 : k1 = k
      · rw [if_pos h2, if_pos h2]
      · rw [if_neg h2, if_neg h2, ih]

/-- Lookup of the inserted key after `rrfInsert`: an existing bucket gets
`score += s` and `src` appended to its sources, a missing one is created
fresh with the incoming hit tagged `Hybrid`. -/
theorem alookup_rrfInsert_self (key : String) (s : ℚ) (src : String)
    (hit : SearchHit) :
    ∀ m, alookup key (rrfInsert key s src hit m) =
      match alookup key m with
      | some e =>
        some ({ e with score := e.score + s,
                       sources := e.sources ++ [src] })
      | none =>
        some ({ score := s, hit := { hit with matched_by := .hybrid },
                sources := [src] }) := by
  intro m
  induction m with
  | nil => simp [rrfInsert, alookup]
  | cons q rest ih =>
    obtain ⟨k1, e⟩ := q
    by_cases h1 : k1 = key
    · subst h1
      simp [rrfInsert, alookup]
    · simp only [rrfInsert, if_neg h1, alookup, if_neg h1]
      exact ih

/-- Characterization of `sources` and `hit` of a bucket after processing
one source list: the prior sources get `keyCount k hits` copies of `src`
appended; a bucket absent before is created (tagged `Hybrid`) from the
first hit with key `k`, when one exists. -/
theorem rrfProcessList_srcHit (src : String) (w : ℚ) :
    ∀ (hits : List SearchHit) (i : Nat) (m : List (String × FusedEntry))
      (k : String),
      (alookup k (rrfProcessList src w i hits m)).map
          (fun e => (e.sources, e.hit)) =
        match (alookup k m).map (fun e => (e.sources, e.hit)) with
        | some (ss, h) =>
          some (ss ++ List.replicate (keyCount k hits) src, h)
        | none =>
          match hits.find? (fun x => decide (rrfKey x = k)) with
          | some x => some (List.replicate (keyCount k hits) src,
              { x with matched_by := .hybrid })
          | none => none := by
  intro hits
  induction hits with
  | nil =>
    intro i m k
    cases h : alookup k m with
    | none => simp [rrfProcessList, h]
    | some e => simp [rrfProcessList, h, keyCount_nil]
  | cons x xs ih =>
    intro i m k
    simp only [rrfProcessList]
    rw [ih]
    by_cases hk : rrfKey x = k
    · subst hk
      rw [alookup_rrfInsert_self]
      rw [keyCount_cons, if_pos rfl, List.find?_cons_of_pos _ (by simp)]
      cases hm : alookup (rrfKey x) m with
      | some e =>
        simp only [hm, Option.map_some']
        rw [List.replicate_succ, List.append_assoc]
        rfl
      | none =>
        simp only [hm, Option.map_some', Option.map_none']
        rw [List.replicate_succ]
        rfl
    · rw [alookup_rrfInsert_other _ _ _ _ _ (fun h => hk h.symm)]
      rw [keyCount_cons, if_neg hk,
        List.find?_cons_of_neg _ (by simp [hk])]

/-- Keys of the map after `rrfInsert`: unchanged when the key is present,
else the key is appended. -/
theorem keys_rrfInsert (key : String) (s : ℚ) (src : String)
    (hit : SearchHit) :
    ∀ m : List (String × FusedEntry),
      (rrfInsert key s src hit m).map Prod.fst =
        if key ∈ m.map Prod.fst then m.map Prod.fst
        else m.map Prod.fst ++ [key] := by
  intro m
  induction m with
  | nil => simp [rrfInsert]
  | cons q rest ih =>
    obtain ⟨k1, e⟩ := q
    by_cases h1 : k1 = key
    · subst h1
      simp [rrfInsert]
    · simp only [rrfInsert, if_neg h1, List.map_cons, ih]
      have hne : ¬ key = k1 := fun h => h1 h.symm
      by_cases hmem : key ∈ rest.map Prod.fst
      · simp [hmem, hne]
      · simp [hmem, hne]

theorem nodup_keys_rrfInsert (key : String) (s : ℚ) (src : String)
    (hit : SearchHit) (m : List (String × FusedEntry))
    (hnd : (m.map Prod.fst).Nodup) :
    ((rrfInsert key s src hit m).map Prod.fst).Nodup := by
  rw [keys_rrfInsert]
  split
  · exact hnd
  · rename_i hni
    simp only [List.nodup_append, List.nodup_singleton]
    exact ⟨hnd, trivial, by
      intro a ha hmem
      rw [List.mem_singleton] at hmem
      exact hni (hmem ▸ ha)⟩

theorem nodup_keys_rrfProcessList (src : String) (w : ℚ) :
    ∀ (hits : List SearchHit) (i : Nat) (m : List (String × FusedEntry)),
      (m.map Prod.fst).Nodup →
      ((rrfProcessList src w i hits m).map Prod.fst).Nodup
  | [], _, _ => fun h => h
  | x :: xs, i, m => fun h =>
    nodup_keys_rrfProcessList src w xs (i + 1) _
      (nodup_keys_rrfInsert _ _ _ _ m h)

theorem alookup_eq_of_mem :
    ∀ (m : List (String × FusedEntry)),
      (m.map Prod.fst).Nodup →
      ∀ (k : String) (e : FusedEntry), (k, e) ∈ m → alookup k m = some e := by
  intro m
  induction m with
  | nil =>
    intro _ k e h
    exact absurd h (List.not_mem_nil _)
  | cons q rest ih =>
    intro hnd k e hm
    obtain ⟨k1, e1⟩ := q
    rcases List.mem_cons.mp hm with heq | hmem
    · injection heq with hk he
      subst hk
      subst he
      simp [alookup]
    · have hk1 : k1 ≠ k := by
        intro hh
        subst hh
        have hkeys : k1 ∈ rest.map Prod.fst :=
          List.mem_map.mpr ⟨(k1, e), hmem, rfl⟩
        rw [List.map_cons, List.nodup_cons] at hnd
        exact hnd.1 hkeys
      simp only [alookup, if_neg hk1]
      rw [List.map_cons, List.nodup_cons] at hnd
      exact ih hnd.2 k e hmem

theorem keyCount_eq_zero_of_find?_none (k : String) (l : List SearchHit)
    (h : l.find? (fun x => decide (rrfKey x = k)) = none) :
    keyCount k l = 0 := by
  rw [List.find?_eq_none] at h
  simp only [keyCount, List.length_eq_zero]
  rw [List.filter_eq_nil]
  intro a ha
  exact h a ha

theorem find?_some_facts (k : String) (l : List SearchHit) (x : SearchHit)
    (h : l.find? (fun x => decide (rrfKey x = k)) = some x) :
    rrfKey x = k ∧ 1 ≤ keyCount k l := by
  have h1 := List.find?_some h
  have h2 := List.mem_of_find?_eq_some h
  refine ⟨of_decide_eq_true h1, ?_⟩
  have hmem : x ∈ l.filter (fun x => decide (rrfKey x = k)) :=
    List.mem_filter.mpr ⟨h2, h1⟩
  exact List.length_pos.mpr (List.ne_nil_of_mem hmem)

/-- C2 (amended): for every fused hit, `matched_by` is determined by how
often its RRF key occurs across the two input lists: more than one
occurrence in total (in particular, presence in both lists, but also a
duplicated key within a single list) yields `hybrid`; exactly one
occurrence, in exactly one list, retains that list's source. -/
theorem C2_matched_by_amended (V K : List SearchHit) (limit : Nat) :
    ∀ h ∈ rrf_fusion V K limit,
      (2 ≤ keyCount (rrfKey h) V + keyCount (rrfKey h) K →
        h.matched_by = MatchType.hybrid) ∧
      (keyCount (rrfKey h) V = 1 ∧ keyCount (rrfKey h) K = 0 →
        h.matched_by = MatchType.vector) ∧
      (keyCount (rrfKey h) V = 0 ∧ keyCount (rrfKey h) K = 1 →
        h.matched_by = MatchType.keyword) := by
  intro h hm
  unfold rrf_fusion at hm
  have hm1 := List.mem_of_mem_take hm
  rw [mem_sortDesc] at hm1
  obtain ⟨p, hp, hph⟩ := List.mem_map.mp hm1
  obtain ⟨k, e⟩ := p
  have hnd : ((rrfProcessList "keyword" KEYWORD_WEIGHT 0 K
      (rrfProcessList "vector" VECTOR_WEIGHT 0 V [])).map Prod.fst).Nodup :=
    nodup_keys_rrfProcessList _ _ K 0 _
      (nodup_keys_rrfProcessList _ _ V 0 [] (by simp))
  have hl : alookup k (rrfProcessList "keyword" KEYWORD_WEIGHT 0 K
      (rrfProcessList "vector" VECTOR_WEIGHT 0 V [])) = some e :=
    alookup_eq_of_mem _ hnd k e hp
  have h2 := rrfProcessList_srcHit "keyword" KEYWORD_WEIGHT K 0
    (rrfProcessList "vector" VECTOR_WEIGHT 0 V []) k
  have h1 := rrfProcessList_srcHit "vector" VECTOR_WEIGHT V 0 [] k
  rw [hl] at h2
  simp only [Option.map_some'] at h2
  have hnil : alookup k ([] : List (String × FusedEntry)) = none := rfl
  rw [hnil] at h1
  simp only [Option.map_none'] at h1
  have hkey0 : rrfKey h = rrfKey e.hit := by
    rw [← hph]
    rfl
  have hmb : h.matched_by =
      (if 1 < e.sources.length then MatchType.hybrid
       else if "vector" ∈ e.sources then MatchType.vector
       else MatchType.keyword) := by
    rw [← hph]
  cases hfV : V.find? (fun x => decide (rrfKey x = k)) with
  | some xv =>
    rw [hfV] at h1
    rw [h1] at h2
    injection h2 with h3
    injection h3 with hsrc hhit
    obtain ⟨hxvkey, hxvcnt⟩ := find?_some_facts k V xv hfV
    have hkey : rrfKey h = k := by
      rw [hkey0, hhit, rrfKey_matched_by, hxvkey]
    rw [hkey]
    refine ⟨?_, ?_, ?_⟩
    · intro hc
      rw [hmb, hsrc]
      rw [if_pos (by
        simp only [List.length_append, List.length_replicate]
        omega)]
    · rintro ⟨hv1, hk0⟩
      rw [hmb, hsrc, hv1, hk0]
      decide
    · rintro ⟨hv0, _⟩
      omega
  | none =>
    rw [hfV] at h1
    have hcV : keyCount k V = 0 := keyCount_eq_zero_of_find?_none k V hfV
    have hnone : alookup k
        (rrfProcessList "vector" VECTOR_WEIGHT 0 V []) = none := by
      cases halo : alookup k (rrfProcessList "vector" VECTOR_WEIGHT 0 V [])
        with
      | none => rfl
      | some e1 =>
        rw [halo] at h1
        simp at h1
    rw [hnone] at h2
    simp only [Option.map_none'] at h2
    cases hfK : K.find? (fun x => decide (rrfKey x = k)) with
    | some xk =>
      rw [hfK] at h2
      injection h2 with h3
      injection h3 with hsrc hhit
      obtain ⟨hxkkey, hxkcnt⟩ := find?_some_facts k K xk hfK
      have hkey : rrfKey h = k := by
        rw [hkey0, hhit, rrfKey_matched_by, hxkkey]
      rw [hkey]
      refine ⟨?_, ?_, ?_⟩
      · intro hc
        rw [hmb, hsrc]
        rw [if_pos (by
          simp only [List.length_replicate]
          omega)]
      · rintro ⟨hv1, _⟩
        omega
      · rintro ⟨_, hk1⟩
        rw [hmb, hsrc, hk1]
        decide
    | none =>
      rw [hfK] at h2
      exact absurd h2 (by simp)

/-- Vector hit of file `f.md` with no `line_start` (RRF key `"f.md:0"`). -/
def dupHitA : SearchHit :=
  { file_path := "f.md", display_name := "", content := "c1",
    heading_path := none, section_title := none, line_start := none,
    line_end := none, score := 1, matched_by := .vector, hit_count := none,
    doc_count := none, folder_path := none, aggregate_type := none,
    doc_type := none, entry_id := none, entry_date := none,
    entry_created_at := none }

/-- Second vector hit of the same file with no `line_start`: it collides
with `dupHitA` on the RRF key. -/
def dupHitB : SearchHit :=
  { file_path := "f.md", display_name := "", content := "c2",
    heading_path := none, section_title := none, line_start := none,
    line_end := none, score := 2, matched_by := .vector, hit_count := none,
    doc_count := none, folder_path := none, aggregate_type := none,
    doc_type := none, entry_id := none, entry_date := none,
    entry_created_at := none }

/-- C2 counterexample: with two vector hits sharing one RRF key and an
empty keyword list, the key occurs only in the vector list, yet the fused
hit is tagged `hybrid` (the code tests `sources.len() > 1`, and duplicate
keys within one list also push to `sources`), not `vector` as the claim
requires. -/
theorem C2_counterexample :
    ∃ h ∈ rrf_fusion [dupHitA, dupHitB] [] 10,
      1 ≤ keyCount (rrfKey h) [dupHitA, dupHitB] ∧
      keyCount (rrfKey h) [] = 0 ∧
      h.matched_by = MatchType.hybrid ∧
      MatchType.hybrid ≠ MatchType.vector := by decide

/-- The single fused hit of `rrf_fusion [dupHitA] [] 10`: score
`0.7 / (60 + 0 + 1) = 7/610`, tagged `vector`. -/
def wVOut : SearchHit :=
  { file_path := "f.md", display_name := "", content := "c1",
    heading_path := none, section_title := none, line_start := none,
    line_end := none, score := 7 / 610, matched_by := .vector,
    hit_count := none, doc_count := none, folder_path := none,
    aggregate_type := none, doc_type := none, entry_id := none,
    entry_date := none, entry_created_at := none }

theorem rrf_fusion_single_eval : rrf_fusion [dupHitA] [] 10 = [wVOut] := by
  norm_num [rrf_fusion, rrfProcessList, rrfInsert, rrfKey, sortDesc,
    insertDesc, RRF_K, VECTOR_WEIGHT, KEYWORD_WEIGHT, dupHitA, wVOut]

/-- Witness for C2 on a single-source, single-occurrence fusion. -/
theorem C2_witness :
    wVOut ∈ rrf_fusion [dupHitA] [] 10 ∧
    wVOut.matched_by = MatchType.vector := by
  have hmem : wVOut ∈ rrf_fusion [dupHitA] [] 10 := by
    rw [rrf_fusion_single_eval]
    exact List.mem_singleton_self _
  exact ⟨hmem,
    ((C2_matched_by_amended [dupHitA] [] 10 wVOut hmem).2.1)
      ⟨by decide, by decide⟩⟩

end OpenContext
